import Mathlib

/-!
Shallow embedding of the history manager (undo/redo hook) from
`src/unnamed/part_000` (`useHistoryState`), together with theorems
settling the specification claims about it.

The hook's mutable React state is a pure record `HistoryState`, and each
operation (`set`, `undo`, `redo`, `setInitial`, `clearHistory`) is a pure
state transformer `HistoryState α → HistoryState α`.  The host language's
identity operator `===` on stored values is modelled by equality of the
value type `α` (with `DecidableEq`); for the one claim that distinguishes
identity from structural equality we instantiate `α` with a type `ObjVal`
carrying an allocation tag, so that `=` on `ObjVal` models `===` while
structural equality compares only the payload.
-/

namespace HistoryHook

/-- `HistoryEntry<T> = { state: T; label: string }` from the source. -/
structure HistoryEntry (α : Type) where
  state : α
  label : String
deriving DecidableEq, Repr

/-- `HistoryState<T> = { past; present; future }` from the source. -/
structure HistoryState (α : Type) where
  past : List (HistoryEntry α)
  present : HistoryEntry α
  future : List (HistoryEntry α)
deriving DecidableEq, Repr

variable {α : Type}

/-- The state installed by `useState` at construction:
`{ past: [], present: { state: initialPresent, label: initialLabel }, future: [] }`. -/
def initialState (v : α) (label : String) : HistoryState α :=
  { past := [], present := { state := v, label := label }, future := [] }

/-- `canUndo = state.past.length > 0`. -/
def canUndo (s : HistoryState α) : Bool :=
  decide (s.past.length > 0)

/-- `canRedo = state.future.length > 0`. -/
def canRedo (s : HistoryState α) : Bool :=
  decide (s.future.length > 0)

/-- `undo`: guarded by `canUndo` (the `none` branch of `getLast?` is exactly the
empty-`past` case); otherwise takes `previous = past[past.length-1]`,
`newPast = past.slice(0, past.length-1)` and returns
`{ past: newPast, present: previous, future: [present, ...future] }`. -/
def undo (s : HistoryState α) : HistoryState α :=
  match s.past.getLast? with
  | none => s
  | some previous =>
      { past := s.past.dropLast
        present := previous
        future := s.present :: s.future }

/-- `redo`: guarded by `canRedo`; otherwise takes `next = future[0]`,
`newFuture = future.slice(1)` and returns
`{ past: [...past, present], present: next, future: newFuture }`. -/
def redo (s : HistoryState α) : HistoryState α :=
  match s.future with
  | [] => s
  | next :: newFuture =>
      { past := s.past ++ [s.present]
        present := next
        future := newFuture }

/-- The `set` argument `newPresentState: T | ((currentState: T) => T)`:
either a literal value or an updater function. -/
inductive Updater (α : Type) where
  | value (v : α)
  | func (f : α → α)

/-- The `typeof newPresentState === 'function'` resolution step in `set`. -/
def resolveUpdater (u : Updater α) (current : α) : α :=
  match u with
  | .value v => v
  | .func f => f current

/-- `set`: resolves the updater against `present.state`; if the resolved value
`=== present.state` the state is returned unchanged, otherwise
`{ past: [...past, present], present: { state: resolved, label }, future: [] }`. -/
def set [DecidableEq α] (s : HistoryState α) (u : Updater α) (label : String) :
    HistoryState α :=
  let resolved := resolveUpdater u s.present.state
  if resolved = s.present.state then
    s
  else
    { past := s.past ++ [s.present]
      present := { state := resolved, label := label }
      future := [] }

/-- `setInitial`: unconditionally installs
`{ past: [], present: { state: initialState, label }, future: [] }`,
ignoring the previous state entirely. -/
def setInitial (v : α) (label : String) : HistoryState α :=
  { past := [], present := { state := v, label := label }, future := [] }

/-- The default label of `setInitial` (and of construction). -/
def initialLabelDefault : String := "Initial State"

/-- `clearHistory`: `{ ...currentState, past: [], future: [] }`. -/
def clearHistory (s : HistoryState α) : HistoryState α :=
  { s with past := [], future := [] }

/-- The derived `history` field of the returned record: `[...state.past, state.present]`. -/
def history (s : HistoryState α) : List (HistoryEntry α) :=
  s.past ++ [s.present]

/-- The derived `currentLabel` field: `state.present.label`. -/
def currentLabel (s : HistoryState α) : String :=
  s.present.label

/-- The full linear history `past ++ [present] ++ future`, used to state the
conservation invariant for `undo`/`redo`. -/
def fullHistory (s : HistoryState α) : List (HistoryEntry α) :=
  s.past ++ s.present :: s.future

/-- One call to the hook's mutating API. -/
inductive Op (α : Type) where
  | set (u : Updater α) (label : String)
  | undo
  | redo
  | setInitial (v : α) (label : String)
  | clearHistory

/-- Applying one operation to the hook state. -/
def applyOp [DecidableEq α] (s : HistoryState α) : Op α → HistoryState α
  | .set u label => set s u label
  | .undo => undo s
  | .redo => redo s
  | .setInitial v label => setInitial v label
  | .clearHistory => clearHistory s

/-- Applying a call sequence left to right. -/
def applyOps [DecidableEq α] (s : HistoryState α) (ops : List (Op α)) :
    HistoryState α :=
  ops.foldl applyOp s

/-- A host-language object value: `ref` models allocation identity, `data` the
structural payload.  Equality on `ObjVal` models `===` (two separately
allocated objects differ even with equal payloads); structural equality
compares only `data`. -/
structure ObjVal where
  ref : Nat
  data : Nat
deriving DecidableEq, Repr

/-! ## Basic lemmas about the operations -/

theorem undo_of_past_nil (s : HistoryState α) (h : s.past = []) : undo s = s := by
  simp [undo, h]

theorem undo_of_past_concat (s : HistoryState α) (p : List (HistoryEntry α))
    (a : HistoryEntry α) (h : s.past = p ++ [a]) :
    undo s = { past := p, present := a, future := s.present :: s.future } := by
  simp [undo, h]

theorem redo_of_future_nil (s : HistoryState α) (h : s.future = []) : redo s = s := by
  simp [redo, h]

theorem redo_of_future_cons (s : HistoryState α) (a : HistoryEntry α)
    (f : List (HistoryEntry α)) (h : s.future = a :: f) :
    redo s = { past := s.past ++ [s.present], present := a, future := f } := by
  simp [redo, h]

theorem redo_undo_of_past_ne_nil (s : HistoryState α) (h : s.past ≠ []) :
    redo (undo s) = s := by
  rcases s.past.eq_nil_or_concat with hnil | ⟨p, a, hp⟩
  · exact absurd hnil h
  · rw [undo_of_past_concat s p a (by simpa using hp)]
    rw [redo_of_future_cons _ s.present s.future rfl]
    cases s
    simp_all

theorem undo_past_length (s : HistoryState α) (h : s.past ≠ []) :
    (undo s).past.length = s.past.length - 1 := by
  rcases s.past.eq_nil_or_concat with hnil | ⟨p, a, hp⟩
  · exact absurd hnil h
  · rw [undo_of_past_concat s p a (by simpa using hp)]
    simp [hp]

theorem redo_iterate_undo_iterate (n : Nat) :
    ∀ (s : HistoryState α), n ≤ s.past.length → redo^[n] (undo^[n] s) = s := by
  induction n with
  | zero => intro s _; rfl
  | succ n ih =>
      intro s h
      have hne : s.past ≠ [] := by
        intro hnil
        rw [hnil] at h
        simp at h
      rw [Function.iterate_succ_apply undo, Function.iterate_succ_apply' redo]
      have hlen : n ≤ (undo s).past.length := by
        rw [undo_past_length s hne]
        omega
      rw [ih (undo s) hlen]
      exact redo_undo_of_past_ne_nil s hne

/-! ## The worked example from the specification

Manager constructed with initial value `0`, then
`set(1,"inc"); set(2,"inc"); undo(); undo(); redo(); set(5,"jump")`. -/

def exStep0 : HistoryState Nat := initialState 0 initialLabelDefault

def exStep1 : HistoryState Nat := set exStep0 (Updater.value 1) "inc"

def exStep2 : HistoryState Nat := set exStep1 (Updater.value 2) "inc"

def exStep3 : HistoryState Nat := undo exStep2

def exStep4 : HistoryState Nat := undo exStep3

def exStep5 : HistoryState Nat := redo exStep4

def exStep6 : HistoryState Nat := set exStep5 (Updater.value 5) "jump"

/-! ## Claim theorems -/

/-- C1: for every `HistoryState` and updater whose resolved value is distinct
(`===`, modelled as equality on `α`) from the current present value,
`set(updater, label)` appends the current present entry to the end of `past`,
installs `{value, label}` as the new present entry, and clears `future`;
afterwards `canUndo` is true and `canRedo` is false. -/
theorem set_distinct_behavior {α : Type} [DecidableEq α] (s : HistoryState α)
    (u : Updater α) (label : String)
    (h : resolveUpdater u s.present.state ≠ s.present.state) :
    set s u label =
      { past := s.past ++ [s.present]
        present := { state := resolveUpdater u s.present.state, label := label }
        future := [] } ∧
    canUndo (set s u label) = true ∧ canRedo (set s u label) = false := by
  refine ⟨?_, ?_, ?_⟩ <;> simp [set, canUndo, canRedo, h]

/-- Witness for C1 at a concrete state and updater. -/
theorem set_distinct_behavior_witness :
    set (initialState (0 : Nat) "init") (Updater.value 1) "inc" =
      { past := [{ state := 0, label := "init" }]
        present := { state := 1, label := "inc" }
        future := [] } ∧
    canUndo (set (initialState (0 : Nat) "init") (Updater.value 1) "inc") = true ∧
    canRedo (set (initialState (0 : Nat) "init") (Updater.value 1) "inc") = false :=
  set_distinct_behavior (initialState 0 "init") (Updater.value 1) "inc" (by decide)

/-- C2: whenever `past` is non-empty, `undo()` immediately followed by `redo()`
restores the identical `HistoryState`; more generally, for any `n` not
exceeding the depth of `past`, `n` undos followed by `n` redos restore the
identical state (with no intervening `set`/`setInitial`). -/
theorem undo_redo_inverse {α : Type} (s : HistoryState α) :
    (s.past ≠ [] → redo (undo s) = s) ∧
    (∀ n : Nat, n ≤ s.past.length → redo^[n] (undo^[n] s) = s) :=
  ⟨redo_undo_of_past_ne_nil s, fun n hn => redo_iterate_undo_iterate n s hn⟩

/-- Witness for C2: the example state after two `set`s, one and two levels deep. -/
theorem undo_redo_inverse_witness :
    redo (undo exStep2) = exStep2 ∧ redo^[2] (undo^[2] exStep2) = exStep2 :=
  ⟨(undo_redo_inverse exStep2).1 (by decide),
   (undo_redo_inverse exStep2).2 2 (by decide)⟩

/-- C3: `undo()` on a non-empty `past` removes its last entry, pushes the
current present entry onto the front of `future`, and installs the removed
entry as the new present; `redo()` on a non-empty `future` removes its first
entry, appends the current present entry to the end of `past`, and installs
the removed entry as the new present. -/
theorem undo_redo_behavior {α : Type} (s : HistoryState α)
    (p f : List (HistoryEntry α)) (prev next : HistoryEntry α) :
    (s.past = p ++ [prev] →
      undo s = { past := p, present := prev, future := s.present :: s.future }) ∧
    (s.future = next :: f →
      redo s = { past := s.past ++ [s.present], present := next, future := f }) :=
  ⟨fun h => undo_of_past_concat s p prev h,
   fun h => redo_of_future_cons s next f h⟩

/-- Witness for C3 on a concrete state with one past and one future entry. -/
theorem undo_redo_behavior_witness :
    (undo { past := [{ state := 0, label := "a" }]
            present := { state := 1, label := "b" }
            future := [{ state := 2, label := "c" }] } =
      { past := []
        present := { state := 0, label := "a" }
        future := [{ state := 1, label := "b" }, { state := 2, label := "c" }] }) ∧
    (redo { past := [{ state := 0, label := "a" }]
            present := { state := 1, label := "b" }
            future := [{ state := 2, label := "c" }] } =
      { past := [{ state := 0, label := "a" }, { state := 1, label := "b" }]
        present := { state := (2 : Nat), label := "c" }
        future := [] }) :=
  ⟨(undo_redo_behavior
      { past := [{ state := 0, label := "a" }]
        present := { state := 1, label := "b" }
        future := [{ state := 2, label := "c" }] }
      [] [] { state := 0, label := "a" } { state := 2, label := "c" }).1 rfl,
   (undo_redo_behavior
      { past := [{ state := 0, label := "a" }]
        present := { state := 1, label := "b" }
        future := [{ state := 2, label := "c" }] }
      [] [] { state := 0, label := "a" } { state := 2, label := "c" }).2 rfl⟩

/-- C4: a `set` whose resolved value is identical (`===`) to the current
present value is a no-op leaving the whole state unchanged; and the check is
identity, not structural equality: over `ObjVal` (where `=` models `===` and
equal `data` with different `ref` models "structurally equal but distinct"),
such a value is NOT a no-op — it pushes a new history entry. -/
theorem set_noop_iff_identical {α : Type} [DecidableEq α] :
    (∀ (s : HistoryState α) (u : Updater α) (label : String),
        resolveUpdater u s.present.state = s.present.state → set s u label = s) ∧
    (∀ (s : HistoryState ObjVal) (v : ObjVal) (label : String),
        v.data = s.present.state.data → v ≠ s.present.state →
        set s (Updater.value v) label =
          { past := s.past ++ [s.present]
            present := { state := v, label := label }
            future := [] } ∧
        (set s (Updater.value v) label).past ≠ s.past) := by
  constructor
  · intro s u label h
    simp [set, h]
  · intro s v label _ hne
    constructor
    · simp [set, resolveUpdater, hne]
    · simp [set, resolveUpdater, hne]

/-- Witness for C4: a literal no-op `set`, and a structurally-equal-but-distinct
`ObjVal` that is not a no-op. -/
theorem set_noop_iff_identical_witness :
    set (initialState (7 : Nat) "init") (Updater.value 7) "again" =
      initialState (7 : Nat) "init" ∧
    (set (initialState (ObjVal.mk 0 5) "init") (Updater.value (ObjVal.mk 1 5)) "clone" =
      { past := [{ state := ObjVal.mk 0 5, label := "init" }]
        present := { state := ObjVal.mk 1 5, label := "clone" }
        future := [] } ∧
    (set (initialState (ObjVal.mk 0 5) "init") (Updater.value (ObjVal.mk 1 5)) "clone").past ≠
      (initialState (ObjVal.mk 0 5) "init").past) :=
  ⟨(set_noop_iff_identical (α := Nat)).1 (initialState 7 "init") (Updater.value 7) "again" rfl,
   (set_noop_iff_identical (α := Nat)).2 (initialState (ObjVal.mk 0 5) "init")
     (ObjVal.mk 1 5) "clone" rfl (by decide)⟩

/-- C5: from any prior state, `setInitial(x, label)` replaces the whole state
with `past = []`, `present = {x, label}`, `future = []`, after which `canUndo`
and `canRedo` are both false. -/
theorem setInitial_resets {α : Type} [DecidableEq α] (s : HistoryState α)
    (v : α) (label : String) :
    applyOp s (Op.setInitial v label) =
      { past := [], present := { state := v, label := label }, future := [] } ∧
    canUndo (applyOp s (Op.setInitial v label)) = false ∧
    canRedo (applyOp s (Op.setInitial v label)) = false := by
  refine ⟨rfl, ?_, ?_⟩ <;> simp [applyOp, setInitial, canUndo, canRedo]

/-- C6: `undo()` with empty `past` and `redo()` with empty `future` are safe
no-ops leaving the entire state unchanged. -/
theorem undo_redo_empty_noop {α : Type} (s : HistoryState α) :
    (s.past = [] → undo s = s) ∧ (s.future = [] → redo s = s) :=
  ⟨undo_of_past_nil s, redo_of_future_nil s⟩

/-- Witness for C6 at the freshly constructed state. -/
theorem undo_redo_empty_noop_witness :
    undo (initialState (0 : Nat) "init") = initialState (0 : Nat) "init" ∧
    redo (initialState (0 : Nat) "init") = initialState (0 : Nat) "init" :=
  ⟨(undo_redo_empty_noop (initialState 0 "init")).1 rfl,
   (undo_redo_empty_noop (initialState 0 "init")).2 rfl⟩

/-- C7: `clearHistory()` empties `past` and `future` and leaves the present
entry — both its value and its label — unchanged. -/
theorem clearHistory_keeps_present {α : Type} (s : HistoryState α) :
    clearHistory s = { past := [], present := s.present, future := [] } ∧
    (clearHistory s).present.state = s.present.state ∧
    (clearHistory s).present.label = s.present.label :=
  ⟨rfl, rfl, rfl⟩

/-- C8: on every state reachable from construction by any call sequence, the
derived queries agree with the state: `canUndo` iff `past` is non-empty,
`canRedo` iff `future` is non-empty, `history = past ++ [present]` (hence
non-empty), and `currentLabel = present.label`. -/
theorem reachable_queries_consistent {α : Type} [DecidableEq α] (v : α)
    (label : String) (ops : List (Op α)) :
    (canUndo (applyOps (initialState v label) ops) = true ↔
        (applyOps (initialState v label) ops).past ≠ []) ∧
    (canRedo (applyOps (initialState v label) ops) = true ↔
        (applyOps (initialState v label) ops).future ≠ []) ∧
    history (applyOps (initialState v label) ops) =
        (applyOps (initialState v label) ops).past ++
          [(applyOps (initialState v label) ops).present] ∧
    history (applyOps (initialState v label) ops) ≠ [] ∧
    currentLabel (applyOps (initialState v label) ops) =
        (applyOps (initialState v label) ops).present.label := by
  refine ⟨?_, ?_, rfl, ?_, rfl⟩
  · simp [canUndo, List.length_pos]
  · simp [canRedo, List.length_pos]
  · simp [history]

/-- C9: the spec's worked example — starting from initial value 0, the sequence
`set(1,"inc"); set(2,"inc"); undo(); undo(); redo(); set(5,"jump")` passes
through exactly the stated intermediate states and ends with present 5,
past values `[0, 1]`, empty future (the 2 entry discarded). -/
theorem worked_example :
    exStep1.present.state = 1 ∧ exStep1.past.map HistoryEntry.state = [0] ∧
      exStep1.future = [] ∧
    exStep2.present.state = 2 ∧ exStep2.past.map HistoryEntry.state = [0, 1] ∧
      exStep2.future = [] ∧
    exStep3.present.state = 1 ∧ exStep3.past.map HistoryEntry.state = [0] ∧
      exStep3.future.map HistoryEntry.state = [2] ∧
    exStep4.present.state = 0 ∧ exStep4.past = [] ∧
      exStep4.future.map HistoryEntry.state = [1, 2] ∧
    exStep5.present.state = 1 ∧ exStep5.past.map HistoryEntry.state = [0] ∧
      exStep5.future.map HistoryEntry.state = [2] ∧
    exStep6.present.state = 5 ∧ exStep6.past.map HistoryEntry.state = [0, 1] ∧
      exStep6.future = [] := by
  decide

/-- C10: `undo` and `redo` each preserve the full concatenation
`past ++ [present] ++ future` exactly — same entries (value and label), same
order — for every state, including the no-op boundary cases. -/
theorem undo_redo_conserve {α : Type} (s : HistoryState α) :
    fullHistory (undo s) = fullHistory s ∧ fullHistory (redo s) = fullHistory s := by
  constructor
  · rcases s.past.eq_nil_or_concat with hnil | ⟨p, a, hp⟩
    · rw [undo_of_past_nil s hnil]
    · rw [undo_of_past_concat s p a (by simpa using hp)]
      simp [fullHistory, hp]
  · rcases hf : s.future with _ | ⟨x, f⟩
    · rw [redo_of_future_nil s hf]
    · rw [redo_of_future_cons s x f hf]
      simp [fullHistory, hf]

end HistoryHook
